import Mathlib

/-!
Verification development for the tezedge chain-synchronization core.

The definitions below are a shallow embedding of the Rust sources
`shell/src/chain_feeder.rs` and `shell/src/chain_manager.rs`:

* block hashes, chain ids, peer identifiers and operation hashes are `Nat`;
* block levels are `Int` (`i32` in the source, used only through comparisons);
* fitness is `List Nat` (an opaque byte vector in the source);
* the persistent key-value stores are association lists, written by consing
  (`List.lookup` returns the most recent binding, matching an overwriting put);
* wall-clock instants are `Nat` (seconds); `elapsed` becomes truncated
  subtraction from an explicit `now`;
* the external protocol-runner is an oracle `applyOk : Nat → Bool` giving the
  outcome of `apply_block` per block hash.

Functions of the repository that are referenced by the two files above but whose
own code is out of scope (peer state helpers, the injected-header store step,
the seeded history walk) are modelled from the specification; each such
definition carries a doc comment starting with `Modelled from the spec:`.
-/

namespace Tezedge

/-- A block header as the chain-synchronization core consumes it: `level`,
`predecessor` hash and `fitness` (other header fields are never inspected by
the embedded code). -/
structure BlockHeader where
  predecessor : Nat
  level : Int
  fitness : List Nat
  deriving DecidableEq, Repr

/-- `storage::BlockHeaderWithHash`: a header together with its own hash. -/
structure BlockHeaderWithHash where
  hash : Nat
  header : BlockHeader
  deriving DecidableEq, Repr

/-- `tezos_messages::Head`: `(block_hash, level, fitness)`, the value stored in
the local/remote current-head slots. -/
structure Head where
  block_hash : Nat
  level : Int
  fitness : List Nat
  deriving DecidableEq, Repr

/-- Per-block metadata record (`storage::block_meta_storage::Meta`); the feeder
reads `is_applied` and `successor` and writes `is_applied`. -/
structure BlockMeta where
  is_applied : Bool
  predecessor : Nat
  successor : Option Nat
  level : Int
  deriving DecidableEq, Repr

/-- Modelled from the spec: the shell-channel event variants (spec §6 internal
events and §7 user-visible failures). The file `shell/src/shell_channel.rs`
that declares them is not among the sources in scope; `BlockApplied`,
`BlockReceived` and `AllBlockOperationsReceived` are the variants constructed
by `chain_feeder.rs` / `chain_manager.rs`, while `ApplyFailed` is the failure
event the spec names in §4.4 and §7 (no source line constructs it). The
`reason` payload is abstracted to a `Nat`. -/
inductive ShellEvent where
  | BlockApplied (hash : Nat) (level : Int)
  | BlockReceived (hash : Nat) (level : Int)
  | AllBlockOperationsReceived (hash : Nat) (level : Int)
  | ApplyFailed (hash : Nat) (reason : Nat)
  deriving DecidableEq, Repr

/-! ## Head-Tracker (`chain_manager.rs`, `struct CurrentHead`) -/

/-- The pair of current-head slots held by the chain manager
(`chain_manager.rs::CurrentHead`); the source field `local` is renamed
`local_head` because `local` is a Lean keyword. -/
structure CurrentHeadSlots where
  local_head : Option Head
  remote_head : Option Head
  deriving DecidableEq, Repr

/-- `CurrentHead::need_update_remote_level` (chain_manager.rs lines 105-110):
the remote slot is updated when it is empty or the incoming level is strictly
greater than the stored one. -/
def need_update_remote_level (remote : Option Head) (new_remote_level : Int) : Bool :=
  match remote with
  | none => true
  | some current_remote_head => decide (current_remote_head.level < new_remote_level)

/-- `CurrentHead::update_remote_head` (chain_manager.rs lines 112-123): replace
the remote slot by `(hash, level, fitness)` of the incoming header iff
`need_update_remote_level` holds. The source carries a `TODO: maybe fitness
check?`; fitness is not consulted. -/
def update_remote_head (remote : Option Head) (block_header : BlockHeaderWithHash) : Option Head :=
  if need_update_remote_level remote block_header.header.level then
    some ⟨block_header.hash, block_header.header.level, block_header.header.fitness⟩
  else remote

/-- `CurrentHead::has_any_higher_than` (chain_manager.rs lines 139-157): is any
of the two head slots strictly above `level_to_check`? -/
def has_any_higher_than (ch : CurrentHeadSlots) (level_to_check : Int) : Bool :=
  (match ch.remote_head with
   | some remote_head => decide (level_to_check < remote_head.level)
   | none => false)
  ||
  (match ch.local_head with
   | some local_head => decide (level_to_check < local_head.level)
   | none => false)

/-- Modelled from the spec: the fitness order the spec delegates to the
external protocol — "lexicographic-by-length comparison": a fitness vector
dominates another iff it is longer, or of equal length and lexicographically
greater. Used only to compare the spec's dominance condition with the code's
level test; no source function in scope computes it. -/
def spec_lex_gt : List Nat → List Nat → Bool
  | _ :: _, [] => true
  | [], _ => false
  | a :: as, b :: bs => decide (b < a) || (a == b && spec_lex_gt as bs)

/-- Modelled from the spec: `fitness(H₁) > fitness(H₂)` under
lexicographic-by-length comparison (spec §3, Head). -/
def spec_fitness_dominates (f₁ f₂ : List Nat) : Bool :=
  decide (f₂.length < f₁.length) || (f₁.length == f₂.length && spec_lex_gt f₁ f₂)

/-! ## Chain-Feeder (`chain_feeder.rs`)

`feed_chain_to_protocol` is a loop over a cursor (`current_head_hash`); one
iteration of the `while` loop is embedded as `feed_step`. The storages the
iteration reads are gathered in `FeederState`:
`block_meta_storage.get` and `block_storage.get` become `List.lookup` on
association lists, and `operations_meta_storage.is_complete` becomes
membership in the list of hashes whose operations are complete. -/

/-- The state one iteration of `feed_chain_to_protocol` works on: the cursor
`current_head_hash` plus the three storages it consults. -/
structure FeederState where
  cursor : Nat
  metas : List (Nat × BlockMeta)
  headers : List (Nat × BlockHeaderWithHash)
  ops_complete : List Nat
  deriving DecidableEq, Repr

/-- How one feeder iteration ends: `cont` corresponds to the `continue`
branches of the source loop, `park` to falling through to `thread::park()`,
and `fail` to an `Err` propagated out of the iteration by `?` (the only such
source inside the loop body is `apply_block`; storage reads are modelled as
pure). -/
inductive StepKind where
  | cont
  | park
  | fail
  deriving DecidableEq, Repr

/-- Result of one feeder iteration: how it ended, the updated state, the
events published on the shell channel, and the hashes on which `apply_block`
was invoked (in invocation order). -/
structure StepRes where
  kind : StepKind
  state : FeederState
  events : List ShellEvent
  attempts : List Nat
  deriving DecidableEq, Repr

/-- Whether block `x` is marked applied in the meta storage of `s`. -/
def appliedIn (s : FeederState) (x : Nat) : Bool :=
  match s.metas.lookup x with
  | some m => m.is_applied
  | none => false

/-- One iteration of the `while` loop of `feed_chain_to_protocol`
(chain_feeder.rs lines 154-221), with the protocol runner abstracted by the
oracle `applyOk`:

* no meta record for the cursor: warn and park;
* meta applied: move to the recorded successor if any, otherwise park;
* meta not applied: if the header is missing from block storage or
  `is_complete` is false, park; otherwise invoke `apply_block`. On success
  mark the meta applied, `put` it back (keyed by `current_head.hash`), publish
  `BlockApplied { hash, level }`, and move to the successor if any (park
  otherwise). On failure the `?` aborts the iteration with an error: nothing
  is stored and nothing is published. -/
def feed_step (applyOk : Nat → Bool) (s : FeederState) : StepRes :=
  match s.metas.lookup s.cursor with
  | none => ⟨.park, s, [], []⟩
  | some current_head_meta =>
    if current_head_meta.is_applied then
      match current_head_meta.successor with
      | some successor_hash => ⟨.cont, { s with cursor := successor_hash }, [], []⟩
      | none => ⟨.park, s, [], []⟩
    else
      match s.headers.lookup s.cursor with
      | none => ⟨.park, s, [], []⟩
      | some current_head =>
        if s.ops_complete.contains current_head.hash then
          if applyOk current_head.hash then
            let new_meta : BlockMeta := { current_head_meta with is_applied := true }
            let s' : FeederState := { s with metas := (current_head.hash, new_meta) :: s.metas }
            let evs := [ShellEvent.BlockApplied current_head.hash current_head.header.level]
            match new_meta.successor with
            | some successor_hash => ⟨.cont, { s' with cursor := successor_hash }, evs, [current_head.hash]⟩
            | none => ⟨.park, s', evs, [current_head.hash]⟩
          else ⟨.fail, s, [], [current_head.hash]⟩
        else ⟨.park, s, [], []⟩

/-- Accumulated result of running the feeder loop for a bounded number of
iterations. -/
structure TraceRes where
  state : FeederState
  events : List ShellEvent
  attempts : List Nat
  end_kind : StepKind
  deriving DecidableEq, Repr

/-- A bounded run of `feed_chain_to_protocol`'s loop. A `park` iteration
blocks on `thread::park()` and resumes with unchanged state when the actor
unparks the thread, so the run simply continues through it; a `fail`
iteration propagates the error out of `feed_chain_to_protocol`, ending the
run with `end_kind = .fail`. -/
def feed_chain_to_protocol (applyOk : Nat → Bool) : Nat → FeederState → TraceRes
  | 0, s => ⟨s, [], [], .park⟩
  | fuel + 1, s =>
    let r := feed_step applyOk s
    match r.kind with
    | .fail => ⟨r.state, r.events, r.attempts, .fail⟩
    | _ =>
      let t := feed_chain_to_protocol applyOk fuel r.state
      ⟨t.state, r.events ++ t.events, r.attempts ++ t.attempts, t.end_kind⟩

/-- The block-applier thread body (chain_feeder.rs lines 54-70): call
`feed_chain_to_protocol` in a loop; every call starts from the same
`current_head_hash` captured at spawn time (`tezos_init`). The source loops
whenever the call returns — with an `Ok` this only happens at shutdown, so the
model restarts only after a `fail` and otherwise stops. -/
def block_applier_loop (applyOk : Nat → Bool) (current_head_hash : Nat)
    (inner_fuel : Nat) :
    Nat → FeederState → FeederState × List ShellEvent × List Nat
  | 0, s => (s, [], [])
  | outer_fuel + 1, s =>
    let t := feed_chain_to_protocol applyOk inner_fuel { s with cursor := current_head_hash }
    match t.end_kind with
    | .fail =>
      let rest := block_applier_loop applyOk current_head_hash inner_fuel outer_fuel t.state
      (rest.1, t.events ++ rest.2.1, t.attempts ++ rest.2.2)
    | _ => (t.state, t.events, t.attempts)

/-! ## Peer state (`shell/src/state/peer_state.rs` is out of scope; the fields
below are the ones `chain_manager.rs` reads and writes, with instants as `Nat`
seconds) -/

/-- `storage::mempool_storage::MempoolOperationType` (out of scope); the
embedded code only ever constructs `Pending`. -/
inductive MempoolOperationType where
  | Pending
  | KnownValid
  deriving DecidableEq, Repr

/-- The per-peer state tracked by the chain manager. The four
`block_*_last` instants live inside `peer.queues` in the source; they are
inlined here because the disciplinarian's pending checks are functions of
them. -/
structure PeerState where
  peer_id : Nat
  mempool_enabled : Bool
  current_head_request_last : Nat
  current_head_response_last : Nat
  mempool_operations_request_last : Nat
  mempool_operations_response_last : Nat
  current_head_level : Option Int
  current_head_update_last : Nat
  current_head_hash : Option Nat
  queued_mempool_operations : List Nat
  missing_mempool_operations : List (Nat × MempoolOperationType)
  block_request_last : Nat
  block_response_last : Nat
  block_operations_request_last : Nat
  block_operations_response_last : Nat
  deriving DecidableEq, Repr

/-- Modelled from the spec: `PeerState::is_block_response_pending`
(peer_state.rs, out of scope) — "a block … request has been pending longer
than `silent_peer_timeout`" (spec §4.8): a request is outstanding (requested
after the last response) and was sent more than `timeout` ago. -/
def is_block_response_pending (state : PeerState) (now timeout : Nat) : Bool :=
  decide (state.block_response_last < state.block_request_last)
    && decide (timeout < now - state.block_request_last)

/-- Modelled from the spec: `PeerState::is_block_operations_response_pending`
(peer_state.rs, out of scope) — same as `is_block_response_pending` for the
block-operations pipeline. -/
def is_block_operations_response_pending (state : PeerState) (now timeout : Nat) : Bool :=
  decide (state.block_operations_response_last < state.block_operations_request_last)
    && decide (timeout < now - state.block_operations_request_last)

/-- `CURRENT_HEAD_LEVEL_UPDATE_TIMEOUT` (chain_manager.rs line 69): 2 minutes,
in seconds. -/
def CURRENT_HEAD_LEVEL_UPDATE_TIMEOUT : Nat := 60 * 2

/-- `SILENT_PEER_TIMEOUT` (chain_manager.rs line 71), in seconds. -/
def SILENT_PEER_TIMEOUT : Nat := 60

/-- `SILENT_PEER_TIMEOUT_SANDBOX` (chain_manager.rs line 73), in seconds. -/
def SILENT_PEER_TIMEOUT_SANDBOX : Nat := 31536000

/-- The per-peer body of `Receive<DisconnectStalledPeers>` (chain_manager.rs
lines 1596-1698): compute `should_disconnect` for one peer. The source's
error fallbacks (failed lock reads, treated as "behave as ok") are not
reachable in the pure model. `ch` holds the node's current-head slots and
`timeout` is `msg.silent_peer_timeout`. -/
def should_disconnect_peer (ch : CurrentHeadSlots) (now timeout : Nat) (state : PeerState) : Bool :=
  let current_head_response_pending :=
    decide (state.current_head_response_last < state.current_head_request_last)
  let mempool_operations_response_pending :=
    decide (state.mempool_operations_response_last < state.mempool_operations_request_last)
  let known_higher_head :=
    match state.current_head_level with
    | some peer_level => has_any_higher_than ch peer_level
    | none => true
  let block_response_pending := is_block_response_pending state now timeout
  let block_operations_response_pending := is_block_operations_response_pending state now timeout
  if block_response_pending || block_operations_response_pending then true
  else if current_head_response_pending
      && decide (timeout < state.current_head_request_last - state.current_head_response_last) then
    true
  else if known_higher_head
      && decide (CURRENT_HEAD_LEVEL_UPDATE_TIMEOUT < now - state.current_head_update_last) then
    true
  else if mempool_operations_response_pending
      && !state.queued_mempool_operations.isEmpty
      && decide (timeout < now - state.mempool_operations_response_last) then
    true
  else false

/-- The disconnect condition exactly as claim C6 words it: (a) a block or
block-operations request pending longer than `silent_peer_timeout`; (b) the
last current-head request time exceeds the last current-head response time by
more than `silent_peer_timeout`; (c) a head higher than the peer's advertised
level is known and the advertised level has not updated within
`CURRENT_HEAD_LEVEL_UPDATE_TIMEOUT` (a peer that never advertised a level has
no advertised level, so no head counts as higher than it); (d) mempool
operations queued from the peer have not been supplied within
`silent_peer_timeout`. -/
def claimed_stalled_condition (ch : CurrentHeadSlots) (now timeout : Nat) (state : PeerState) : Bool :=
  is_block_response_pending state now timeout
  || is_block_operations_response_pending state now timeout
  || decide (state.current_head_response_last + timeout < state.current_head_request_last)
  || (match state.current_head_level with
      | some peer_level =>
        has_any_higher_than ch peer_level
          && decide (CURRENT_HEAD_LEVEL_UPDATE_TIMEOUT < now - state.current_head_update_last)
      | none => false)
  || (decide (state.mempool_operations_response_last < state.mempool_operations_request_last)
      && !state.queued_mempool_operations.isEmpty
      && decide (timeout < now - state.mempool_operations_response_last))

/-- The claimed disconnect condition amended at exactly the point the code
diverges from it: a peer that has never advertised a level counts as if a
higher head were known, so staleness of `current_head_update_last` alone
disconnects it. -/
def amended_stalled_condition (ch : CurrentHeadSlots) (now timeout : Nat) (state : PeerState) : Bool :=
  is_block_response_pending state now timeout
  || is_block_operations_response_pending state now timeout
  || decide (state.current_head_response_last + timeout < state.current_head_request_last)
  || ((match state.current_head_level with
       | some peer_level => has_any_higher_than ch peer_level
       | none => true)
      && decide (CURRENT_HEAD_LEVEL_UPDATE_TIMEOUT < now - state.current_head_update_last))
  || (decide (state.mempool_operations_response_last < state.mempool_operations_request_last)
      && !state.queued_mempool_operations.isEmpty
      && decide (timeout < now - state.mempool_operations_response_last))

/-! ## Advertiser and mempool resolution (`chain_manager.rs` lines 1188-1279) -/

/-- `tezos_messages::...::Mempool`: the mempool payload of a `CurrentHead`
message, two lists of operation hashes. -/
structure Mempool where
  known_valid : List Nat
  pending : List Nat
  deriving DecidableEq, Repr

/-- `Mempool::default()`: the empty mempool. -/
def Mempool.default : Mempool := ⟨[], []⟩

/-- `Mempool::is_empty`. -/
def Mempool.is_empty (m : Mempool) : Bool :=
  m.known_valid.isEmpty && m.pending.isEmpty

/-- `CurrentHeadMessage`: what the node sends for `CurrentHead`. -/
structure CurrentHeadMessage where
  chain_id : Nat
  current_block_header : BlockHeader
  current_mempool : Mempool
  deriving DecidableEq, Repr

/-- The shared mempool state (`mempool_state.rs`, out of scope) as
`resolve_mempool_to_send_to_peer` consumes it: the head it was validated
against, and its conversion into a wire `Mempool`. -/
structure MempoolState where
  head : Option Nat
  known_valid : List Nat
  pending : List Nat
  deriving DecidableEq, Repr

/-- The `&MempoolState → Mempool` conversion used when replying to
`GetCurrentHead`. -/
def MempoolState.toMempool (s : MempoolState) : Mempool :=
  ⟨s.known_valid, s.pending⟩

/-- `ChainManager::resolve_mempool_to_send_to_peer` (chain_manager.rs lines
1253-1279): the mempool attached to a `GetCurrentHead` reply. Empty when
`p2p_disable_mempool` is set, when the peer lacks the mempool capability, or
when the shared mempool state is absent or was computed for a different head.
The source's lock-failure error path is not reachable in the pure model. -/
def resolve_mempool_to_send_to_peer (peer : PeerState) (p2p_disable_mempool : Bool)
    (current_mempool_state : MempoolState) (current_head : Head) : Mempool :=
  if p2p_disable_mempool then Mempool.default
  else if !peer.mempool_enabled then Mempool.default
  else
    match current_mempool_state.head with
    | some mempool_head_hash =>
      if mempool_head_hash == current_head.block_hash then
        current_mempool_state.toMempool
      else Mempool.default
    | none => Mempool.default

/-- `ChainManager::advertise_current_head_to_p2p` (chain_manager.rs lines
1191-1251): the list of `(peer_id, CurrentHeadMessage)` pairs handed to
`tell_peer`. Peers with the mempool capability receive the given `mempool`
unless `p2p_disable_mempool` empties it; peers without the capability receive
an empty mempool; when `ignore_msg_with_empty_mempool` is set, messages whose
mempool is empty are not sent at all. -/
def advertise_current_head_to_p2p (p2p_disable_mempool : Bool) (peers : List PeerState)
    (chain_id : Nat) (block_header : BlockHeader) (mempool : Mempool)
    (ignore_msg_with_empty_mempool : Bool) : List (Nat × CurrentHeadMessage) :=
  let msg_for_mempool_enabled : CurrentHeadMessage :=
    ⟨chain_id, block_header, if p2p_disable_mempool then Mempool.default else mempool⟩
  let msg_for_mempool_enabled_is_mempool_empty :=
    msg_for_mempool_enabled.current_mempool.is_empty
  let msg_for_mempool_disabled : CurrentHeadMessage :=
    ⟨chain_id, block_header, Mempool.default⟩
  peers.filterMap fun peer =>
    let sel :=
      if peer.mempool_enabled then
        (msg_for_mempool_enabled, msg_for_mempool_enabled_is_mempool_empty)
      else
        (msg_for_mempool_disabled, true)
    let can_send_msg := !(ignore_msg_with_empty_mempool && sel.2)
    if can_send_msg then some (peer.peer_id, sel.1) else none

/-! ## Block injection (`ChainManager::process_injected_block`,
chain_manager.rs lines 881-1092) -/

/-- What `dispatch_condvar_result` hands to the injection caller: `ok` when no
error was dispatched synchronously, or the dispatched error message. -/
inductive CallbackResult where
  | ok
  | error (msg : String)
  deriving DecidableEq, Repr

/-- Outcome of `process_injected_block` as observed by its caller: the value
dispatched through the condvar `result_callback`, the events published on the
shell channel, and whether `try_apply_block` was requested from the feeder. -/
structure InjectResult where
  callback : CallbackResult
  events : List ShellEvent
  apply_requested : Bool
  deriving DecidableEq, Repr

/-- `ChainManager::process_injected_block`. `stored_blocks` is the set of
block hashes already in block storage: `is_new_block` is modelled from the
spec ("Header: created on first receipt from any peer (duplicates rejected by
hash)") since `chain_state.process_injected_block_header` is out of scope.
`are_operations_complete` is that call's third result;
`operations`/`operation_paths` are the optional request payloads, a list of
operation lists (one per validation pass) and the per-pass paths. A duplicate
injection (`is_new_block = false`) dispatches an error through the callback,
publishes nothing, and never reaches `try_apply_block`. -/
def process_injected_block (stored_blocks : List Nat) (block_header_with_hash : BlockHeaderWithHash)
    (are_operations_complete : Bool) (operations : Option (List (List Nat)))
    (operation_paths : Option (List Nat)) : InjectResult :=
  let is_new_block := !(stored_blocks.contains block_header_with_hash.hash)
  if is_new_block then
    let received :=
      [ShellEvent.BlockReceived block_header_with_hash.hash block_header_with_hash.header.level]
    if are_operations_complete then
      ⟨.ok, received, true⟩
    else
      match operations with
      | none => ⟨.error "Missing operations in request", received, false⟩
      | some ops =>
        match operation_paths with
        | none => ⟨.error "Missing operation paths in request", received, false⟩
        | some op_paths =>
          if ops.length ≤ op_paths.length then
            ⟨.ok,
              received
                ++ [ShellEvent.AllBlockOperationsReceived block_header_with_hash.hash
                      block_header_with_hash.header.level],
              true⟩
          else ⟨.error "Missing operation paths in request for index", received, false⟩
  else ⟨.error "Injected duplicated block - will be ignored!", [], false⟩

/-! ## CurrentBranch emissions (`chain_manager.rs` lines 371-404 and
1155-1186) -/

/-- `crypto::seeded_step::Seed` (out of scope): built from the node's identity
public key hash and the remote peer's public key hash, both abstracted to
`Nat`. -/
structure Seed where
  local_pkh : Nat
  remote_pkh : Nat
  deriving DecidableEq, Repr

/-- `CurrentBranchMessage`: header of the advertised head plus the sparse
ancestor `history`. -/
structure CurrentBranchMessage where
  chain_id : Nat
  current_head : BlockHeader
  history : List Nat
  deriving DecidableEq, Repr

/-- The `PeerMessage::GetCurrentBranch` reply (chain_manager.rs lines
371-404): history computed by `chain_state.get_history` (out of scope, passed
in as `get_history`) at the local head's hash with
`Seed::new(identity_peer_id, peer_public_key_hash)`. -/
def get_current_branch_reply (get_history : Nat → Seed → List Nat)
    (identity_peer_id : Nat) (peer_public_key_hash : Nat)
    (chain_id : Nat) (current_head : BlockHeaderWithHash) : CurrentBranchMessage :=
  ⟨chain_id, current_head.header,
    get_history current_head.hash ⟨identity_peer_id, peer_public_key_hash⟩⟩

/-- `ChainManager::advertise_current_branch_to_p2p` (chain_manager.rs lines
1155-1186): one `CurrentBranchMessage` per connected peer, each with a history
computed at the advertised head's hash and the seed
`Seed::new(identity_peer_id, peer.peer_public_key_hash)`. Peers are paired
with their public key hashes, since the key hash lives in the out-of-scope
part of `PeerState`. -/
def advertise_current_branch_to_p2p (get_history : Nat → Seed → List Nat)
    (identity_peer_id : Nat) (peers : List (PeerState × Nat)) (chain_id : Nat)
    (block_header : BlockHeaderWithHash) : List (Nat × CurrentBranchMessage) :=
  peers.map fun peer =>
    (peer.1.peer_id,
      ⟨chain_id, block_header.header,
        get_history block_header.hash ⟨identity_peer_id, peer.2⟩⟩)

/-! ## The `PeerMessage::CurrentHead` handler (`chain_manager.rs` lines
520-648) -/

/-- `BlockAcceptanceResult` (`state/chain_state.rs`, out of scope): the
classification `can_accept_head` returns; the variant spelling (including the
source's `Mutlipass` typo) is kept. -/
inductive BlockAcceptanceResult where
  | AcceptBlock
  | IgnoreBlock
  | UnknownBranch
  | MutlipassValidationError (reason : Nat)
  deriving DecidableEq, Repr

/-- Modelled from the spec: `PeerState::update_current_head_level`
(peer_state.rs, out of scope). It records the peer's advertised level; since
§4.8 disciplines a peer whose "advertised level has not increased in
`current_head_level_update_timeout`", the update also refreshes
`current_head_update_last` whenever the level is first set or does not
decrease. -/
def update_current_head_level (now : Nat) (new_level : Int) (peer : PeerState) : PeerState :=
  match peer.current_head_level with
  | none =>
    { peer with current_head_level := some new_level, current_head_update_last := now }
  | some current_level =>
    if current_level ≤ new_level then
      { peer with current_head_level := some new_level, current_head_update_last := now }
    else peer

/-- Modelled from the spec: `PeerState::update_current_head` (peer_state.rs,
out of scope) — records the peer's advertised head (spec §3 Peer-State:
`current_head_level`, `current_head_hash`). -/
def update_current_head (now : Nat) (block_header : BlockHeaderWithHash) (peer : PeerState) : PeerState :=
  { update_current_head_level now block_header.header.level peer with
      current_head_hash := some block_header.hash }

/-- Modelled from the spec: `PeerState::clear` (peer_state.rs, out of scope)
— "clear peer stuff immediatelly" before blacklisting: drop the peer's
queued and missing mempool work. -/
def PeerState.clear (peer : PeerState) : PeerState :=
  { peer with queued_mempool_operations := [], missing_mempool_operations := [] }

/-- Everything the `CurrentHead` handler can do besides updating the peer
record and the remote-head slot. -/
structure CurrentHeadHandlerEffects where
  events : List ShellEvent
  asked_current_branch : Bool
  blacklisted : Bool
  scheduled_bootstrap : Bool
  bootstrap_history : List Nat
  check_mempool_triggered : Bool
  deriving DecidableEq, Repr

/-- The no-effect value. -/
def CurrentHeadHandlerEffects.none : CurrentHeadHandlerEffects :=
  ⟨[], false, false, false, [], false⟩

/-- The `PeerMessage::CurrentHead` arm of
`ChainManager::process_network_channel_message` (chain_manager.rs lines
520-648). External collaborators enter as parameters: `accept` is what
`chain_state.can_accept_head` would classify the message as, and
`is_new_header` is the result of
`chain_state.process_block_header_from_peer` inside
`process_downloaded_header` (header not seen before). The handler always
stamps `current_head_response_last` and records the advertised level; only
when the bootstrap gate is open (`is_bootstrapped`) does it classify the
head, and then: on `AcceptBlock` it records the peer's head, updates the
remote-head slot, publishes `BlockReceived` for a new header, schedules a
history bootstrap seeded with the local head, enqueues the message's mempool
hashes for download and triggers `CheckMempoolCompleteness`; on
`IgnoreBlock` nothing; on `UnknownBranch` it asks the peer for its current
branch; on `MutlipassValidationError` it clears the peer and blacklists it. -/
def handle_current_head_message (accept : BlockAcceptanceResult) (is_new_header : Bool)
    (is_bootstrapped : Bool) (now : Nat) (message_current_head : BlockHeaderWithHash)
    (message_mempool : Mempool) (local_head : Option Head) (peer : PeerState)
    (remote : Option Head) : PeerState × Option Head × CurrentHeadHandlerEffects :=
  let peer := { peer with current_head_response_last := now }
  let peer := update_current_head_level now message_current_head.header.level peer
  if is_bootstrapped then
    match accept with
    | .AcceptBlock =>
      let peer := update_current_head now message_current_head peer
      let remote := update_remote_head remote message_current_head
      let events :=
        if is_new_header then
          [ShellEvent.BlockReceived message_current_head.hash
            message_current_head.header.level]
        else []
      let history :=
        match local_head with
        | some cur => [cur.block_hash]
        | none => []
      let peer :=
        { peer with
            missing_mempool_operations :=
              peer.missing_mempool_operations
                ++ message_mempool.known_valid.map (fun h => (h, MempoolOperationType.Pending))
                ++ message_mempool.pending.map (fun h => (h, MempoolOperationType.Pending)) }
      (peer, remote, ⟨events, false, false, true, history, true⟩)
    | .IgnoreBlock => (peer, remote, CurrentHeadHandlerEffects.none)
    | .UnknownBranch =>
      (peer, remote, ⟨[], true, false, false, [], false⟩)
    | .MutlipassValidationError _ =>
      (peer.clear, remote, ⟨[], false, true, false, [], false⟩)
  else (peer, remote, CurrentHeadHandlerEffects.none)

/-! ## Concurrent runs of the feeder

The feeder thread interleaves with the downloader and the chain manager, which
write headers, metas and operation flags concurrently (spec §5). A concurrent
run is the reflexive-transitive interleaving `Reaches` of feeder iterations
(`feed_step`) with environment writes (`EnvStep`). `EnvStep` captures what the
rest of the system is allowed to do to the three storages per the spec's
shared-resource policy (§5) and storage invariants (§3): headers are immutable
once stored and keyed by their own hash, successor links point at genuine
children and are never overwritten once set, meta records are never dropped,
and `meta.applied` is written only by the feeder. -/

/-- Every stored header sits under its own hash. -/
def HeadersKeyed (s : FeederState) : Prop :=
  ∀ k b, s.headers.lookup k = some b → b.hash = k

/-- Every recorded successor link points at a stored child of its block: if
`meta(k).successor = c` and a header for `c` is stored, that header's
predecessor is `k` (spec §3: "The `successor` field is set when a child header
is received"). -/
def SuccessorsGenuine (s : FeederState) : Prop :=
  ∀ k m c bc, s.metas.lookup k = some m → m.successor = some c →
    s.headers.lookup c = some bc → bc.header.predecessor = k

/-- The cursor is either an already-applied block or the recorded successor of
an applied block. This holds at feeder start (the cursor is initialized to the
persisted last-applied block) and is maintained by the loop, which moves the
cursor only along successor links out of applied blocks. -/
def CursorReachable (s : FeederState) : Prop :=
  appliedIn s s.cursor = true
  ∨ ∃ k m, s.metas.lookup k = some m ∧ m.is_applied = true ∧ m.successor = some s.cursor

/-- The inductive invariant of a feeder run. -/
def FeederInv (s : FeederState) : Prop :=
  HeadersKeyed s ∧ SuccessorsGenuine s ∧ CursorReachable s

/-- One write of the environment (downloader / chain manager) to the storages,
between feeder iterations. Allowed: adding headers (keyed by their hash),
adding or completing metas, setting missing successor links to genuine
children, marking operations complete. Not allowed (spec §3 and §5): changing
the feeder's cursor, removing or rewriting stored headers, dropping meta
records, unsetting recorded successor links, or touching `meta.applied` in
either direction ("`meta.applied` written only by Feeder"). -/
def EnvStep (s s' : FeederState) : Prop :=
  s'.cursor = s.cursor
  ∧ HeadersKeyed s'
  ∧ SuccessorsGenuine s'
  ∧ (∀ k b, s.headers.lookup k = some b → s'.headers.lookup k = some b)
  ∧ (∀ k m, s.metas.lookup k = some m →
      ∃ m', s'.metas.lookup k = some m'
        ∧ (m.is_applied = true → m'.is_applied = true)
        ∧ ∀ c, m.successor = some c → m'.successor = some c)
  ∧ (∀ k, appliedIn s' k = true → appliedIn s k = true)

/-- `Reaches applyOk s t evs`: from storage state `s` the system can reach
state `t` with the feeder having published exactly the event list `evs`, by
interleaving feeder iterations with environment writes. -/
inductive Reaches (applyOk : Nat → Bool) : FeederState → FeederState → List ShellEvent → Prop where
  | refl (s : FeederState) : Reaches applyOk s s []
  | fstep (s t : FeederState) (evs : List ShellEvent) :
      Reaches applyOk (feed_step applyOk s).state t evs →
      Reaches applyOk s t ((feed_step applyOk s).events ++ evs)
  | estep (s s' t : FeederState) (evs : List ShellEvent) :
      EnvStep s s' → Reaches applyOk s' t evs →
      Reaches applyOk s t evs

/-! ## Concrete states used by the witnesses and counterexamples -/

/-- A peer record with all instants at 0 and empty queues. -/
def basePeer : PeerState :=
  { peer_id := 0
    mempool_enabled := true
    current_head_request_last := 0
    current_head_response_last := 0
    mempool_operations_request_last := 0
    mempool_operations_response_last := 0
    current_head_level := none
    current_head_update_last := 0
    current_head_hash := none
    queued_mempool_operations := []
    missing_mempool_operations := []
    block_request_last := 0
    block_response_last := 0
    block_operations_request_last := 0
    block_operations_response_last := 0 }

/-- A protocol runner that applies every block successfully. -/
def demoApply : Nat → Bool := fun _ => true

/-- A protocol runner that fails exactly on block 2. -/
def demoFailApply : Nat → Bool := fun h => decide (h ≠ 2)

/-- A three-block store: block 1 applied (the persisted head), its child 2 and
grandchild 3 downloaded with complete operations. -/
def demoFeeder : FeederState :=
  { cursor := 1
    metas := [(1, ⟨true, 0, some 2, 1⟩), (2, ⟨false, 1, some 3, 2⟩), (3, ⟨false, 2, none, 3⟩)]
    headers := [(2, ⟨2, ⟨1, 2, []⟩⟩), (3, ⟨3, ⟨2, 3, []⟩⟩)]
    ops_complete := [2, 3] }

/-- Intermediate states of the run over `demoFeeder`. -/
def demoFeeder₁ : FeederState := (feed_step demoApply demoFeeder).state

/-- Second intermediate state of the run over `demoFeeder`. -/
def demoFeeder₂ : FeederState := (feed_step demoApply demoFeeder₁).state

/-- Final state of the run over `demoFeeder`. -/
def demoFeeder₃ : FeederState := (feed_step demoApply demoFeeder₂).state

/-- A two-block store where block 1 is applied and its child 2 is complete but
will fail to apply. -/
def demoFailFeeder : FeederState :=
  { cursor := 1
    metas := [(1, ⟨true, 0, some 2, 1⟩), (2, ⟨false, 1, none, 2⟩)]
    headers := [(1, ⟨1, ⟨0, 1, []⟩⟩), (2, ⟨2, ⟨1, 2, []⟩⟩)]
    ops_complete := [1, 2] }

/-- A concrete deterministic history function for the C9 witness. -/
def demo_history : Nat → Seed → List Nat :=
  fun h s => [h, s.local_pkh, s.remote_pkh]

/-- A concrete header for witnesses. -/
def demoHeader : BlockHeader := ⟨0, 1, []⟩

/-! ## Helper lemmas -/

/-- A successful association-list lookup comes from an entry of the list. -/
theorem lookup_mem {β : Type} {l : List (Nat × β)} {k : Nat} {v : β}
    (h : l.lookup k = some v) : (k, v) ∈ l := by
  rcases List.lookup_eq_some_iff.mp h with ⟨l₁, l₂, rfl, -⟩
  simp

/-- Updating the remote head from a `some` slot keeps a `some` slot and never
lowers its level. -/
theorem update_remote_head_some (h : Head) (b : BlockHeaderWithHash) :
    ∃ h', update_remote_head (some h) b = some h' ∧ h.level ≤ h'.level := by
  unfold update_remote_head need_update_remote_level
  by_cases hlt : h.level < b.header.level
  · exact ⟨⟨b.hash, b.header.level, b.header.fitness⟩, by simp [hlt], le_of_lt hlt⟩
  · exact ⟨h, by simp [hlt], le_refl _⟩

/-- Folding any sequence of remote-head updates over a `some` slot never
lowers the stored level. -/
theorem foldl_update_remote_head_mono (bs : List BlockHeaderWithHash) :
    ∀ h : Head, ∃ h', bs.foldl update_remote_head (some h) = some h' ∧ h.level ≤ h'.level := by
  induction bs with
  | nil => exact fun h => ⟨h, rfl, le_refl _⟩
  | cons b bs ih =>
    intro h
    obtain ⟨h₁, hb, hle₁⟩ := update_remote_head_some h b
    obtain ⟨h', hfold, hle₂⟩ := ih h₁
    exact ⟨h', by simpa [List.foldl_cons, hb] using hfold, le_trans hle₁ hle₂⟩

/-! ## C4 -/

/-- C4 fails on the code: `update_remote_head` compares levels, not fitness.
At `remote = some ⟨1, 5, [1]⟩`, the incoming head `⟨2, level 5, fitness [2]⟩`
strictly dominates in fitness yet is discarded (equal level), and the incoming
head `⟨3, level 6, fitness [0]⟩` does not dominate in fitness yet replaces the
slot. -/
theorem c4_fitness_claim_counterexample :
    (spec_fitness_dominates [2] [1] = true
      ∧ update_remote_head (some ⟨1, 5, [1]⟩) ⟨2, ⟨0, 5, [2]⟩⟩ = some ⟨1, 5, [1]⟩)
    ∧ (spec_fitness_dominates [0] [1] = false
      ∧ update_remote_head (some ⟨1, 5, [1]⟩) ⟨3, ⟨0, 6, [0]⟩⟩ = some ⟨3, 6, [0]⟩) := by
  decide

/-- C4 (amended): `update_remote_head` replaces the stored remote head iff the
slot is empty or the incoming header's level is strictly greater than the
stored level; fitness is never consulted. -/
theorem c4_update_remote_head_level_law (remote : Option Head) (block_header : BlockHeaderWithHash) :
    (remote = none →
      update_remote_head remote block_header
        = some ⟨block_header.hash, block_header.header.level, block_header.header.fitness⟩)
    ∧ ∀ h, remote = some h →
        (h.level < block_header.header.level →
          update_remote_head remote block_header
            = some ⟨block_header.hash, block_header.header.level, block_header.header.fitness⟩)
        ∧ (block_header.header.level ≤ h.level →
          update_remote_head remote block_header = some h) := by
  refine ⟨fun hr => by subst hr; simp [update_remote_head, need_update_remote_level], ?_⟩
  intro h hr
  subst hr
  constructor
  · intro hlt
    simp [update_remote_head, need_update_remote_level, hlt]
  · intro hle
    simp [update_remote_head, need_update_remote_level, not_lt.mpr hle]

/-- Witness for `c4_update_remote_head_level_law` at concrete inputs: a
strictly higher level replaces the slot, a lower-or-equal level is
discarded. -/
theorem c4_update_remote_head_level_law_witness :
    update_remote_head (some ⟨1, 5, [1]⟩) ⟨2, ⟨0, 6, [2]⟩⟩ = some ⟨2, 6, [2]⟩
    ∧ update_remote_head (some ⟨1, 5, [1]⟩) ⟨2, ⟨0, 4, [2]⟩⟩ = some ⟨1, 5, [1]⟩ :=
  ⟨((c4_update_remote_head_level_law (some ⟨1, 5, [1]⟩) ⟨2, ⟨0, 6, [2]⟩⟩).2 ⟨1, 5, [1]⟩ rfl).1
      (by decide),
   ((c4_update_remote_head_level_law (some ⟨1, 5, [1]⟩) ⟨2, ⟨0, 4, [2]⟩⟩).2 ⟨1, 5, [1]⟩ rfl).2
      (by decide)⟩

/-! ## C5 -/

/-- C5: the remote head is monotone in level. An update whose header level is
lower than or equal to the stored remote head's level leaves the slot
unchanged, and across any sequence of updates the stored level never
decreases. -/
theorem c5_remote_head_level_monotone (remote : Option Head) (h : Head)
    (b : BlockHeaderWithHash) (bs : List BlockHeaderWithHash)
    (hr : remote = some h) (hle : b.header.level ≤ h.level) :
    update_remote_head remote b = remote
    ∧ ∃ h', bs.foldl update_remote_head remote = some h' ∧ h.level ≤ h'.level := by
  subst hr
  refine ⟨?_, foldl_update_remote_head_mono bs h⟩
  simp [update_remote_head, need_update_remote_level, not_lt.mpr hle]

/-- Witness for `c5_remote_head_level_monotone`: an equal-level update is
discarded, and the level after a sequence of updates is at least the starting
level. -/
theorem c5_remote_head_level_monotone_witness :
    update_remote_head (some ⟨1, 5, [1]⟩) ⟨2, ⟨0, 5, [9]⟩⟩ = some ⟨1, 5, [1]⟩
    ∧ ∃ h', List.foldl update_remote_head (some ⟨1, 5, [1]⟩)
        [⟨3, ⟨0, 7, []⟩⟩, ⟨4, ⟨0, 4, []⟩⟩] = some h'
      ∧ (⟨1, 5, [1]⟩ : Head).level ≤ h'.level :=
  c5_remote_head_level_monotone (some ⟨1, 5, [1]⟩) ⟨1, 5, [1]⟩ ⟨2, ⟨0, 5, [9]⟩⟩
    [⟨3, ⟨0, 7, []⟩⟩, ⟨4, ⟨0, 4, []⟩⟩] rfl (by decide)

/-! ## C6 -/

/-- C6 fails on the code at a peer that never advertised a level: the scan
treats `current_head_level = None` as "a higher head is known"
(`known_higher_head` defaults to `true`), so with a stale
`current_head_update_last` the peer is disconnected even though no head at all
is known to the node (both head slots empty), while the claim's conditions are
all false there. -/
theorem c6_stalled_claim_counterexample :
    should_disconnect_peer ⟨none, none⟩ 1000 60 basePeer = true
    ∧ claimed_stalled_condition ⟨none, none⟩ 1000 60 basePeer = false := by
  decide

/-- C6 (amended): a peer is disconnected by the stalled-peers scan iff one of
the claim's four conditions holds, with the third condition widened so that a
peer that has never advertised a level counts as if a higher head were
known. -/
theorem c6_stalled_peer_disconnect_iff (ch : CurrentHeadSlots) (now timeout : Nat)
    (state : PeerState) :
    should_disconnect_peer ch now timeout state
      = amended_stalled_condition ch now timeout state := by
  have hBC : (decide (state.current_head_response_last < state.current_head_request_last)
      && decide (timeout < state.current_head_request_last - state.current_head_response_last))
      = decide (state.current_head_response_last + timeout < state.current_head_request_last) := by
    by_cases h1 : state.current_head_response_last < state.current_head_request_last
      <;> by_cases h2 :
        timeout < state.current_head_request_last - state.current_head_response_last
      <;> simp [h1, h2]
      <;> omega
  have key : ∀ (a b c d : Bool),
      (if a then true else if b then true else if c then true else if d then true else false)
        = (a || (b || (c || d))) := by decide
  unfold should_disconnect_peer amended_stalled_condition
  rw [key, hBC]
  cases hA1 : is_block_response_pending state now timeout
    <;> cases hA2 : is_block_operations_response_pending state now timeout
    <;> simp [Bool.or_assoc]

/-! ## C7 -/

/-- C7: with `p2p_disable_mempool = true`, every `CurrentHead` message the
node emits carries the empty mempool — both the per-peer head advertisements
(for any peer, any actual mempool, any `ignore_msg_with_empty_mempool` flag,
whatever the peer's `mempool_enabled` capability) and the `GetCurrentHead`
replies via `resolve_mempool_to_send_to_peer`. -/
theorem c7_disable_mempool_always_empty (peers : List PeerState) (chain_id : Nat)
    (block_header : BlockHeader) (mempool : Mempool) (ignore_msg_with_empty_mempool : Bool) :
    (∀ pm ∈ advertise_current_head_to_p2p true peers chain_id block_header mempool
        ignore_msg_with_empty_mempool, pm.2.current_mempool = Mempool.default)
    ∧ ∀ (peer : PeerState) (st : MempoolState) (head : Head),
        resolve_mempool_to_send_to_peer peer true st head = Mempool.default := by
  constructor
  · intro pm hpm
    unfold advertise_current_head_to_p2p at hpm
    simp only [List.mem_filterMap] at hpm
    obtain ⟨a, ha, heq⟩ := hpm
    by_cases hmen : a.mempool_enabled <;> simp [hmen] at heq
    · obtain ⟨-, hpm'⟩ := heq
      rw [← hpm']
    · obtain ⟨-, hpm'⟩ := heq
      rw [← hpm']
  · intro peer st head
    rfl

/-- Witness for `c7_disable_mempool_always_empty`: a mempool-capable peer,
with a non-empty shared mempool, still receives the empty mempool in the
advertised `CurrentHead`. -/
theorem c7_disable_mempool_always_empty_witness :
    (0, CurrentHeadMessage.mk 1 demoHeader Mempool.default)
        ∈ advertise_current_head_to_p2p true [basePeer] 1 demoHeader ⟨[5], []⟩ false
    ∧ (CurrentHeadMessage.mk 1 demoHeader Mempool.default).current_mempool
        = Mempool.default :=
  ⟨by decide,
   (c7_disable_mempool_always_empty [basePeer] 1 demoHeader ⟨[5], []⟩ false).1
     (0, CurrentHeadMessage.mk 1 demoHeader Mempool.default) (by decide)⟩

/-! ## C8 -/

/-- C8: injecting a block whose header is already stored dispatches an error
through the result callback, publishes no event (in particular no
`BlockReceived`), and never reaches `try_apply_block`. -/
theorem c8_duplicate_injection_rejected (stored_blocks : List Nat)
    (block_header_with_hash : BlockHeaderWithHash) (are_operations_complete : Bool)
    (operations : Option (List (List Nat))) (operation_paths : Option (List Nat))
    (hdup : stored_blocks.contains block_header_with_hash.hash = true) :
    process_injected_block stored_blocks block_header_with_hash are_operations_complete
        operations operation_paths
      = ⟨.error "Injected duplicated block - will be ignored!", [], false⟩ := by
  simp only [process_injected_block]
  rw [hdup]
  rfl

/-- Witness for `c8_duplicate_injection_rejected`: re-injecting block 6. -/
theorem c8_duplicate_injection_rejected_witness :
    ([6] : List Nat).contains (6 : Nat) = true
    ∧ process_injected_block [6] ⟨6, ⟨0, 1, []⟩⟩ true none none
      = ⟨.error "Injected duplicated block - will be ignored!", [], false⟩ :=
  ⟨by decide, c8_duplicate_injection_rejected [6] ⟨6, ⟨0, 1, []⟩⟩ true none none (by decide)⟩

/-! ## C9 -/

/-- C9: the history carried by a `CurrentBranch` emission to a peer is the
deterministic function `get_history` of the advertised head's hash and the
seed `(identity public key hash, peer public key hash)` alone — identically in
branch advertisements and in `GetCurrentBranch` replies (even across different
chain-id arguments), so any two emissions to the same peer for the same local
head carry the same history. -/
theorem c9_branch_history_deterministic (get_history : Nat → Seed → List Nat)
    (identity_peer_id : Nat) (peers : List (PeerState × Nat)) (p : PeerState × Nat)
    (chain_id chain_id' : Nat) (head : BlockHeaderWithHash) (hp : p ∈ peers) :
    ∃ m, (p.1.peer_id, m)
        ∈ advertise_current_branch_to_p2p get_history identity_peer_id peers chain_id head
      ∧ m.history
        = (get_current_branch_reply get_history identity_peer_id p.2 chain_id' head).history
      ∧ m.history = get_history head.hash ⟨identity_peer_id, p.2⟩ := by
  refine ⟨⟨chain_id, head.header, get_history head.hash ⟨identity_peer_id, p.2⟩⟩, ?_, rfl, rfl⟩
  unfold advertise_current_branch_to_p2p
  exact List.mem_map_of_mem _ hp

/-- Witness for `c9_branch_history_deterministic` at a concrete peer, head and
history function. -/
theorem c9_branch_history_deterministic_witness :
    (basePeer, 3) ∈ [(basePeer, 3)]
    ∧ ∃ m, ((basePeer, 3).1.peer_id, m)
          ∈ advertise_current_branch_to_p2p demo_history 2 [(basePeer, 3)] 1 ⟨10, demoHeader⟩
        ∧ m.history
          = (get_current_branch_reply demo_history 2 (basePeer, 3).2 4 ⟨10, demoHeader⟩).history
        ∧ m.history = demo_history 10 ⟨2, 3⟩ :=
  ⟨by decide,
   c9_branch_history_deterministic demo_history 2 [(basePeer, 3)] (basePeer, 3) 1 4
     ⟨10, demoHeader⟩ (by decide)⟩

/-! ## C10 -/

/-- `update_current_head_level` only touches the advertised level and its
update timestamp. -/
theorem update_current_head_level_fields (now : Nat) (l : Int) (p : PeerState) :
    ∃ lvl ul, update_current_head_level now l p
      = { p with current_head_level := lvl, current_head_update_last := ul } := by
  unfold update_current_head_level
  split
  · exact ⟨some l, now, rfl⟩
  · split
    · exact ⟨some l, now, rfl⟩
    · exact ⟨p.current_head_level, p.current_head_update_last, rfl⟩

/-- C10 fails as enumerated: while not bootstrapped, handling a `CurrentHead`
from a peer that never advertised a level also refreshes the peer's
`current_head_update_last` timestamp (part of recording the advertised
level), a field outside the claim's list
`{current_head_response_last, current_head_level}`. -/
theorem c10_frame_counterexample :
    (handle_current_head_message .IgnoreBlock false false 7 ⟨5, ⟨0, 3, []⟩⟩ Mempool.default
        none basePeer none).1.current_head_update_last
      ≠ basePeer.current_head_update_last := by
  decide

/-- C10 (amended): while the bootstrap gate is closed, the `CurrentHead`
handler only stamps the peer's `current_head_response_last` and records the
advertised level (`current_head_level` together with its
`current_head_update_last` timestamp); the remote-head slot is returned
unchanged, no event, download, mempool fetch, current-branch request or
blacklisting is produced, and the result does not even depend on the
acceptance classification, the header-novelty flag, the message's mempool or
the local head. -/
theorem c10_not_bootstrapped_frame (accept accept' : BlockAcceptanceResult)
    (is_new_header is_new_header' : Bool) (now : Nat)
    (message_current_head : BlockHeaderWithHash) (message_mempool message_mempool' : Mempool)
    (local_head local_head' : Option Head) (peer : PeerState) (remote remote' : Option Head) :
    handle_current_head_message accept is_new_header false now message_current_head
        message_mempool local_head peer remote
      = (update_current_head_level now message_current_head.header.level
            { peer with current_head_response_last := now },
          remote, CurrentHeadHandlerEffects.none)
    ∧ (handle_current_head_message accept is_new_header false now message_current_head
          message_mempool local_head peer remote).1
        = (handle_current_head_message accept' is_new_header' false now message_current_head
            message_mempool' local_head' peer remote').1
    ∧ ∃ lvl ul,
        (handle_current_head_message accept is_new_header false now message_current_head
            message_mempool local_head peer remote).1
          = { peer with
                current_head_response_last := now
                current_head_level := lvl
                current_head_update_last := ul } := by
  refine ⟨rfl, rfl, ?_⟩
  obtain ⟨lvl, ul, h⟩ := update_current_head_level_fields now
    message_current_head.header.level { peer with current_head_response_last := now }
  have h1 : (handle_current_head_message accept is_new_header false now message_current_head
      message_mempool local_head peer remote).1
      = update_current_head_level now message_current_head.header.level
          { peer with current_head_response_last := now } := rfl
  exact ⟨lvl, ul, by rw [h1, h]⟩

/-! ## C1 and C3: single feeder iterations -/

/-- Exhaustive description of one feeder iteration: it either (1) parks
without touching anything, (2) skips an already-applied cursor block along its
successor link, (3) attempts a failing apply, leaving the state unchanged and
publishing nothing, or (4) applies the cursor block, marking it applied and
publishing its `BlockApplied` event, then moving to the successor or
parking. -/
theorem feed_step_cases (applyOk : Nat → Bool) (s : FeederState) :
    ((feed_step applyOk s).state = s ∧ (feed_step applyOk s).events = []
      ∧ (feed_step applyOk s).attempts = [])
    ∨ (∃ m succ, s.metas.lookup s.cursor = some m ∧ m.is_applied = true
        ∧ m.successor = some succ
        ∧ (feed_step applyOk s).state = { s with cursor := succ }
        ∧ (feed_step applyOk s).events = [] ∧ (feed_step applyOk s).attempts = [])
    ∨ (∃ m blk, s.metas.lookup s.cursor = some m ∧ m.is_applied = false
        ∧ s.headers.lookup s.cursor = some blk
        ∧ s.ops_complete.contains blk.hash = true ∧ applyOk blk.hash = false
        ∧ (feed_step applyOk s).state = s ∧ (feed_step applyOk s).events = []
        ∧ (feed_step applyOk s).attempts = [blk.hash]
        ∧ (feed_step applyOk s).kind = .fail)
    ∨ (∃ m blk, s.metas.lookup s.cursor = some m ∧ m.is_applied = false
        ∧ s.headers.lookup s.cursor = some blk
        ∧ s.ops_complete.contains blk.hash = true ∧ applyOk blk.hash = true
        ∧ (feed_step applyOk s).events = [ShellEvent.BlockApplied blk.hash blk.header.level]
        ∧ (feed_step applyOk s).attempts = [blk.hash]
        ∧ (feed_step applyOk s).state.metas
            = (blk.hash, { m with is_applied := true }) :: s.metas
        ∧ (feed_step applyOk s).state.headers = s.headers
        ∧ ((m.successor = none ∧ (feed_step applyOk s).state.cursor = s.cursor
              ∧ (feed_step applyOk s).kind = .park)
            ∨ (m.successor = some (feed_step applyOk s).state.cursor
              ∧ (feed_step applyOk s).kind = .cont))) := by
  rcases hm : s.metas.lookup s.cursor with _ | m
  · exact Or.inl (by simp [feed_step, hm])
  · rcases hap : m.is_applied with _ | _
    · rcases hblk : s.headers.lookup s.cursor with _ | blk
      · exact Or.inl (by simp [feed_step, hm, hap, hblk])
      · rcases hops : s.ops_complete.contains blk.hash with _ | _
        · have hnmem : blk.hash ∉ s.ops_complete := by simpa using hops
          exact Or.inl (by simp [feed_step, hm, hap, hblk, hnmem])
        · have hmem : blk.hash ∈ s.ops_complete := by simpa using hops
          rcases happ : applyOk blk.hash with _ | _
          · exact Or.inr (Or.inr (Or.inl ⟨m, blk, rfl, hap, rfl, hops, happ,
              by simp [feed_step, hm, hap, hblk, hmem, happ],
              by simp [feed_step, hm, hap, hblk, hmem, happ],
              by simp [feed_step, hm, hap, hblk, hmem, happ],
              by simp [feed_step, hm, hap, hblk, hmem, happ]⟩))
          · rcases hs : m.successor with _ | succ
            · exact Or.inr (Or.inr (Or.inr ⟨m, blk, rfl, hap, rfl, hops, happ,
                by simp [feed_step, hm, hap, hblk, hmem, happ, hs],
                by simp [feed_step, hm, hap, hblk, hmem, happ, hs],
                by simp [feed_step, hm, hap, hblk, hmem, happ, hs],
                by simp [feed_step, hm, hap, hblk, hmem, happ, hs],
                Or.inl ⟨hs,
                  by simp [feed_step, hm, hap, hblk, hmem, happ, hs],
                  by simp [feed_step, hm, hap, hblk, hmem, happ, hs]⟩⟩))
            · exact Or.inr (Or.inr (Or.inr ⟨m, blk, rfl, hap, rfl, hops, happ,
                by simp [feed_step, hm, hap, hblk, hmem, happ, hs],
                by simp [feed_step, hm, hap, hblk, hmem, happ, hs],
                by simp [feed_step, hm, hap, hblk, hmem, happ, hs],
                by simp [feed_step, hm, hap, hblk, hmem, happ, hs],
                Or.inr ⟨by simp [feed_step, hm, hap, hblk, hmem, happ, hs],
                  by simp [feed_step, hm, hap, hblk, hmem, happ, hs]⟩⟩))
    · rcases hs : m.successor with _ | succ
      · exact Or.inl (by simp [feed_step, hm, hap, hs])
      · exact Or.inr (Or.inl ⟨m, succ, rfl, hap, hs,
          by simp [feed_step, hm, hap, hs],
          by simp [feed_step, hm, hap, hs],
          by simp [feed_step, hm, hap, hs]⟩)

/-- C1: one feeder iteration invokes `apply_block` only when the cursor block
has a meta record that is not yet applied, its header is present in block
storage and its operations are complete; and on a successful apply it
publishes exactly `BlockApplied` with that block's hash and level, stores the
meta record with `is_applied = true` (so the cursor block is applied
afterwards), and moves the cursor to the recorded successor when one exists,
parking otherwise. -/
theorem c1_feeder_apply_correct (applyOk : Nat → Bool) (s : FeederState)
    (hkeys : ∀ p ∈ s.headers, p.2.hash = p.1) :
    ((feed_step applyOk s).attempts ≠ [] →
      ∃ m blk, s.metas.lookup s.cursor = some m ∧ m.is_applied = false
        ∧ s.headers.lookup s.cursor = some blk
        ∧ s.ops_complete.contains blk.hash = true)
    ∧ (∀ m blk, s.metas.lookup s.cursor = some m → m.is_applied = false →
        s.headers.lookup s.cursor = some blk → s.ops_complete.contains blk.hash = true →
        applyOk blk.hash = true →
        (feed_step applyOk s).events = [ShellEvent.BlockApplied blk.hash blk.header.level]
        ∧ (feed_step applyOk s).state.metas.lookup blk.hash
            = some { m with is_applied := true }
        ∧ appliedIn (feed_step applyOk s).state s.cursor = true
        ∧ (∀ succ, m.successor = some succ →
            (feed_step applyOk s).kind = .cont ∧ (feed_step applyOk s).state.cursor = succ)
        ∧ (m.successor = none →
            (feed_step applyOk s).kind = .park
              ∧ (feed_step applyOk s).state.cursor = s.cursor)) := by
  constructor
  · intro hatt
    rcases feed_step_cases applyOk s with ⟨-, -, h⟩
      | ⟨m, succ, -, -, -, -, -, h⟩
      | ⟨m, blk, hm, hap, hblk, hops, -, -, -, -, -⟩
      | ⟨m, blk, hm, hap, hblk, hops, -, -, -, -, -, -⟩
    · exact absurd h hatt
    · exact absurd h hatt
    · exact ⟨m, blk, hm, hap, hblk, hops⟩
    · exact ⟨m, blk, hm, hap, hblk, hops⟩
  · intro m blk hm hap hblk hops happ
    have hmem : blk.hash ∈ s.ops_complete := by simpa using hops
    have hbk : blk.hash = s.cursor := hkeys (s.cursor, blk) (lookup_mem hblk)
    rcases hs : m.successor with _ | succ
    · refine ⟨?_, ?_, ?_, ?_, ?_⟩
      · simp [feed_step, hm, hap, hblk, hmem, happ, hs]
      · simp [feed_step, hm, hap, hblk, hmem, happ, hs]
      · rw [← hbk]
        simp [appliedIn, feed_step, hm, hap, hblk, hmem, happ, hs]
      · intro succ h
        cases h
      · intro _
        constructor
          <;> simp [feed_step, hm, hap, hblk, hmem, happ, hs]
    · refine ⟨?_, ?_, ?_, ?_, ?_⟩
      · simp [feed_step, hm, hap, hblk, hmem, happ, hs]
      · simp [feed_step, hm, hap, hblk, hmem, happ, hs]
      · rw [← hbk]
        simp [appliedIn, feed_step, hm, hap, hblk, hmem, happ, hs]
      · intro succ2 h
        cases h
        constructor
          <;> simp [feed_step, hm, hap, hblk, hmem, happ, hs]
      · intro h
        cases h

/-- Witness for `c1_feeder_apply_correct`: applying block 2 of the demo store
publishes `BlockApplied 2 2` and moves the cursor to its successor 3. -/
theorem c1_feeder_apply_correct_witness :
    (∀ p ∈ ({ demoFeeder with cursor := 2 } : FeederState).headers, p.2.hash = p.1)
    ∧ (feed_step demoApply { demoFeeder with cursor := 2 }).events
        = [ShellEvent.BlockApplied 2 2]
    ∧ (feed_step demoApply { demoFeeder with cursor := 2 }).kind = .cont
    ∧ (feed_step demoApply { demoFeeder with cursor := 2 }).state.cursor = 3 :=
  ⟨by decide,
   ((c1_feeder_apply_correct demoApply { demoFeeder with cursor := 2 } (by decide)).2
       ⟨false, 1, some 3, 2⟩ ⟨2, ⟨1, 2, []⟩⟩ (by decide) rfl (by decide) (by decide) rfl).1,
   (((c1_feeder_apply_correct demoApply { demoFeeder with cursor := 2 } (by decide)).2
       ⟨false, 1, some 3, 2⟩ ⟨2, ⟨1, 2, []⟩⟩ (by decide) rfl (by decide) (by decide) rfl).2.2.2.1
     3 rfl).1,
   (((c1_feeder_apply_correct demoApply { demoFeeder with cursor := 2 } (by decide)).2
       ⟨false, 1, some 3, 2⟩ ⟨2, ⟨1, 2, []⟩⟩ (by decide) rfl (by decide) (by decide) rfl).2.2.2.1
     3 rfl).2⟩

/-- C3 fails on the code: on an apply failure the feeder publishes no event at
all (in particular no `ApplyFailed`), the run aborts with an error, and the
applier thread's outer loop restarts the walk from the initial head, retrying
the same block — here block 2's apply is attempted twice across two feed
runs, refuting "halts on this branch". -/
theorem c3_apply_failed_claim_counterexample :
    (feed_chain_to_protocol demoFailApply 5 demoFailFeeder).events = []
    ∧ (feed_chain_to_protocol demoFailApply 5 demoFailFeeder).end_kind = .fail
    ∧ (feed_chain_to_protocol demoFailApply 5 demoFailFeeder).attempts = [2]
    ∧ (block_applier_loop demoFailApply 1 5 2 demoFailFeeder).2.1 = []
    ∧ (block_applier_loop demoFailApply 1 5 2 demoFailFeeder).2.2 = [2, 2] := by
  decide

/-- C3 (amended): when `apply_block` fails on a ready cursor block, the
iteration records the attempt, publishes no event, leaves the storages and the
cursor unchanged, and aborts the feed run with an error (after which the
applier loop calls the feed again from the initial head). -/
theorem c3_apply_failure_no_event (applyOk : Nat → Bool) (s : FeederState)
    (m : BlockMeta) (blk : BlockHeaderWithHash)
    (hm : s.metas.lookup s.cursor = some m) (hap : m.is_applied = false)
    (hblk : s.headers.lookup s.cursor = some blk)
    (hops : s.ops_complete.contains blk.hash = true)
    (hfail : applyOk blk.hash = false) :
    feed_step applyOk s = ⟨.fail, s, [], [blk.hash]⟩ := by
  have hmem : blk.hash ∈ s.ops_complete := by simpa using hops
  simp [feed_step, hm, hap, hblk, hmem, hfail]

/-- Witness for `c3_apply_failure_no_event` at the demo store whose block 2
fails to apply. -/
theorem c3_apply_failure_no_event_witness :
    ({ demoFailFeeder with cursor := 2 } : FeederState).metas.lookup 2
        = some ⟨false, 1, none, 2⟩
    ∧ demoFailApply 2 = false
    ∧ feed_step demoFailApply { demoFailFeeder with cursor := 2 }
      = ⟨.fail, { demoFailFeeder with cursor := 2 }, [], [2]⟩ :=
  ⟨by decide, by decide,
   c3_apply_failure_no_event demoFailApply { demoFailFeeder with cursor := 2 }
     ⟨false, 1, none, 2⟩ ⟨2, ⟨1, 2, []⟩⟩ (by decide) rfl (by decide) (by decide) (by decide)⟩

/-! ## C2: causal apply order over concurrent runs -/

/-- `appliedIn` only reads the meta storage. -/
theorem appliedIn_congr {s t : FeederState} (h : t.metas = s.metas) (x : Nat) :
    appliedIn t x = appliedIn s x := by
  unfold appliedIn
  rw [h]

/-- `appliedIn` after consing one meta binding. -/
theorem appliedIn_cons {s t : FeederState} {bh : Nat} {m' : BlockMeta}
    (h : t.metas = (bh, m') :: s.metas) (x : Nat) :
    appliedIn t x = if x = bh then m'.is_applied else appliedIn s x := by
  by_cases hx : x = bh
  · subst hx
    simp [appliedIn, h]
  · have hne : (x == bh) = false := by simpa using hx
    simp [appliedIn, h, List.lookup_cons, hne, hx]

/-- A feeder iteration never touches the header storage. -/
theorem feed_step_headers_eq (applyOk : Nat → Bool) (s : FeederState) :
    (feed_step applyOk s).state.headers = s.headers := by
  rcases feed_step_cases applyOk s with ⟨h, -, -⟩
    | ⟨m, succ, -, -, -, h, -, -⟩
    | ⟨m, blk, -, -, -, -, -, h, -, -, -⟩
    | ⟨m, blk, -, -, -, -, -, -, -, -, h, -⟩
  · rw [h]
  · rw [h]
  · rw [h]
  · exact h

/-- A feeder iteration never clears an applied flag. -/
theorem appliedIn_feed_step_mono (applyOk : Nat → Bool) (s : FeederState) (x : Nat)
    (h : appliedIn s x = true) : appliedIn (feed_step applyOk s).state x = true := by
  rcases feed_step_cases applyOk s with ⟨hstate, -, -⟩
    | ⟨m, succ, -, -, -, hstate, -, -⟩
    | ⟨m, blk, -, -, -, -, -, hstate, -, -, -⟩
    | ⟨m, blk, -, -, -, -, -, -, -, hmetas, -, -⟩
  · rw [hstate]; exact h
  · rw [appliedIn_congr (show ((feed_step applyOk s).state).metas = s.metas by rw [hstate])]
    exact h
  · rw [hstate]; exact h
  · rw [appliedIn_cons hmetas]
    by_cases hx : x = blk.hash
    · simp [hx]
    · simp [hx, h]

/-- An environment write never clears an applied flag. -/
theorem EnvStep_applied_mono {s s' : FeederState} (he : EnvStep s s') {x : Nat}
    (h : appliedIn s x = true) : appliedIn s' x = true := by
  unfold appliedIn at h ⊢
  rcases hm : s.metas.lookup x with _ | m
  · rw [hm] at h
    cases h
  · rw [hm] at h
    obtain ⟨m', hm', himp, -⟩ := he.2.2.2.2.1 x m hm
    rw [hm']
    exact himp h

/-- The feeder invariant is preserved by one feeder iteration. -/
theorem FeederInv_feed_step (applyOk : Nat → Bool) (s : FeederState)
    (hJ : FeederInv s) : FeederInv (feed_step applyOk s).state := by
  obtain ⟨hk, hsg, hco⟩ := hJ
  rcases feed_step_cases applyOk s with ⟨hstate, -, -⟩
    | ⟨m, succ, hm, hap, hs, hstate, -, -⟩
    | ⟨m, blk, -, -, -, -, -, hstate, -, -, -⟩
    | ⟨m, blk, hm, hap, hblk, -, -, -, -, hmetas, hheaders, hcur⟩
  · rw [hstate]; exact ⟨hk, hsg, hco⟩
  · rw [hstate]
    exact ⟨hk, hsg, Or.inr ⟨s.cursor, m, hm, hap, hs⟩⟩
  · rw [hstate]; exact ⟨hk, hsg, hco⟩
  · have hbk : blk.hash = s.cursor := hk s.cursor blk hblk
    refine ⟨?_, ?_, ?_⟩
    · intro k b hkb
      rw [hheaders] at hkb
      exact hk k b hkb
    · intro k mk c bc hkm hsucc hbc
      rw [hheaders] at hbc
      rw [hmetas] at hkm
      by_cases hkb : k = blk.hash
      · subst hkb
        rw [List.lookup_cons_self] at hkm
        have hmk : mk = { m with is_applied := true } := (Option.some.inj hkm).symm
        have hms : m.successor = some c := by
          rw [← hsucc, hmk]
        have := hsg s.cursor m c bc hm hms hbc
        rw [hbk]
        exact this
      · have hne : (k == blk.hash) = false := by simpa using hkb
        rw [List.lookup_cons] at hkm
        rw [hne] at hkm
        exact hsg k mk c bc hkm hsucc hbc
    · rcases hcur with ⟨hnone, hcur', -⟩ | ⟨hsome, -⟩
      · left
        rw [hcur', ← hbk, appliedIn_cons hmetas]
        simp
      · right
        refine ⟨blk.hash, { m with is_applied := true }, ?_, rfl, hsome⟩
        rw [hmetas]
        exact List.lookup_cons_self

/-- The feeder invariant is preserved by an environment write. -/
theorem FeederInv_env {s s' : FeederState} (hJ : FeederInv s) (he : EnvStep s s') :
    FeederInv s' := by
  refine ⟨he.2.1, he.2.2.1, ?_⟩
  rcases hJ.2.2 with happ | ⟨k, m, hkm, hkap, hks⟩
  · left
    rw [he.1]
    exact EnvStep_applied_mono he happ
  · right
    obtain ⟨m', hm', himp, hsucc⟩ := he.2.2.2.2.1 k m hkm
    refine ⟨k, m', hm', himp hkap, ?_⟩
    rw [he.1]
    exact hsucc _ hks

/-- Applied flags are monotone along a concurrent run. -/
theorem Reaches_applied_mono {applyOk : Nat → Bool} {s t : FeederState}
    {evs : List ShellEvent} (hr : Reaches applyOk s t evs) :
    ∀ x, appliedIn s x = true → appliedIn t x = true := by
  induction hr with
  | refl s => exact fun _ h => h
  | fstep s t evs _ ih => exact fun x h => ih x (appliedIn_feed_step_mono applyOk s x h)
  | estep s s' t evs he _ ih => exact fun x h => ih x (EnvStep_applied_mono he h)

/-- Stored headers persist, with their value, along a concurrent run. -/
theorem Reaches_headers_persist {applyOk : Nat → Bool} {s t : FeederState}
    {evs : List ShellEvent} (hr : Reaches applyOk s t evs) :
    ∀ k b, s.headers.lookup k = some b → t.headers.lookup k = some b := by
  induction hr with
  | refl s => exact fun _ _ h => h
  | fstep s t evs _ ih =>
    intro k b h
    refine ih k b ?_
    rw [feed_step_headers_eq]
    exact h
  | estep s s' t evs he _ ih => exact fun k b h => ih k b (he.2.2.2.1 k b h)

/-- A block that is already applied is never re-applied: no `BlockApplied`
event for it can appear later in the run. -/
theorem Reaches_no_reapply {applyOk : Nat → Bool} {s t : FeederState}
    {evs : List ShellEvent} (hr : Reaches applyOk s t evs) :
    FeederInv s → ∀ x l, appliedIn s x = true → ShellEvent.BlockApplied x l ∉ evs := by
  induction hr with
  | refl s =>
    intro _ x l _ hl
    simp at hl
  | fstep s t evs hr ih =>
    intro hJ x l hx hl
    have hJ' := FeederInv_feed_step applyOk s hJ
    have hx' := appliedIn_feed_step_mono applyOk s x hx
    rcases List.mem_append.mp hl with hl1 | hl2
    · rcases feed_step_cases applyOk s with ⟨-, hev, -⟩
        | ⟨m, succ, -, -, -, -, hev, -⟩
        | ⟨m, blk, -, -, -, -, -, -, hev, -, -⟩
        | ⟨m, blk, hm, hap, hblk, -, -, hev, -, -, -, -⟩
      · rw [hev] at hl1; simp at hl1
      · rw [hev] at hl1; simp at hl1
      · rw [hev] at hl1; simp at hl1
      · rw [hev] at hl1
        simp only [List.mem_singleton, ShellEvent.BlockApplied.injEq] at hl1
        obtain ⟨hx1, -⟩ := hl1
        have hbk : blk.hash = s.cursor := hJ.1 s.cursor blk hblk
        rw [hx1, hbk] at hx
        unfold appliedIn at hx
        rw [hm] at hx
        have hx2 : m.is_applied = true := hx
        rw [hap] at hx2
        cases hx2
    · exact ih hJ' x l hx' hl2
  | estep s s' t evs he hr ih =>
    intro hJ x l hx hl
    exact ih (FeederInv_env hJ he) x l (EnvStep_applied_mono he hx) hl

/-- Every block whose `BlockApplied` event appears in a run is applied in the
final state. -/
theorem Reaches_event_applied {applyOk : Nat → Bool} {s t : FeederState}
    {evs : List ShellEvent} (hr : Reaches applyOk s t evs) :
    ∀ x l, ShellEvent.BlockApplied x l ∈ evs → appliedIn t x = true := by
  induction hr with
  | refl s =>
    intro x l hl
    simp at hl
  | fstep s t evs hr ih =>
    intro x l hl
    rcases List.mem_append.mp hl with hl1 | hl2
    · rcases feed_step_cases applyOk s with ⟨-, hev, -⟩
        | ⟨m, succ, -, -, -, -, hev, -⟩
        | ⟨m, blk, -, -, -, -, -, -, hev, -, -⟩
        | ⟨m, blk, -, -, -, -, -, hev, -, hmetas, -, -⟩
      · rw [hev] at hl1; simp at hl1
      · rw [hev] at hl1; simp at hl1
      · rw [hev] at hl1; simp at hl1
      · rw [hev] at hl1
        simp only [List.mem_singleton, ShellEvent.BlockApplied.injEq] at hl1
        obtain ⟨hx1, -⟩ := hl1
        refine Reaches_applied_mono hr x ?_
        rw [hx1, appliedIn_cons hmetas]
        simp
    · exact ih x l hl2
  | estep s s' t evs he hr ih => exact fun x l hl => ih x l hl

/-- Core ordering lemma: when a run emits `BlockApplied` for a block `B` whose
stored header names predecessor `A`, either `A` was already applied when the
run began, or the run emitted `BlockApplied` for `A` strictly earlier. -/
theorem Reaches_pred_applied_before {applyOk : Nat → Bool} {s t : FeederState}
    {evs : List ShellEvent} (hr : Reaches applyOk s t evs) :
    FeederInv s → ∀ (j B : Nat) (lb : Int) (bB : BlockHeaderWithHash),
      evs[j]? = some (ShellEvent.BlockApplied B lb) →
      t.headers.lookup B = some bB →
      appliedIn s bB.header.predecessor = true
      ∨ ∃ (i : Nat) (la : Int), i < j
          ∧ evs[i]? = some (ShellEvent.BlockApplied bB.header.predecessor la) := by
  induction hr with
  | refl s =>
    intro _ j B lb bB hB _
    simp at hB
  | fstep s t evs hr ih =>
    intro hJ j B lb bB hB hhdr
    have hJ' := FeederInv_feed_step applyOk s hJ
    rcases feed_step_cases applyOk s with ⟨hstate, hev, -⟩
      | ⟨m, succ, hm, hap, hs, hstate, hev, -⟩
      | ⟨m, blk, hm, hap, hblk, hops, happ, hstate, hev, -, -⟩
      | ⟨m, blk, hm, hap, hblk, hops, happ, hev, -, hmetas, hheaders, -⟩
    · rw [hev, List.nil_append] at hB
      rcases ih hJ' j B lb bB hB hhdr with h1 | h2
      · left
        rw [hstate] at h1
        exact h1
      · right
        rw [hev, List.nil_append]
        exact h2
    · rw [hev, List.nil_append] at hB
      rcases ih hJ' j B lb bB hB hhdr with h1 | h2
      · left
        rw [appliedIn_congr (show ((feed_step applyOk s).state).metas = s.metas
          by rw [hstate])] at h1
        exact h1
      · right
        rw [hev, List.nil_append]
        exact h2
    · rw [hev, List.nil_append] at hB
      rcases ih hJ' j B lb bB hB hhdr with h1 | h2
      · left
        rw [hstate] at h1
        exact h1
      · right
        rw [hev, List.nil_append]
        exact h2
    · rw [hev, List.singleton_append] at hB
      have hbk : blk.hash = s.cursor := hJ.1 s.cursor blk hblk
      cases j with
      | zero =>
        rw [List.getElem?_cons_zero] at hB
        simp only [Option.some.injEq, ShellEvent.BlockApplied.injEq] at hB
        obtain ⟨hB1, -⟩ := hB
        left
        have hpers : t.headers.lookup B = some blk := by
          apply Reaches_headers_persist hr
          rw [hheaders, ← hB1, hbk]
          exact hblk
        have hbB : bB = blk := by
          have h := hpers
          rw [hhdr] at h
          exact Option.some.inj h
        rcases hJ.2.2 with hcapp | ⟨k, mk, hkm, hkap, hks⟩
        · exfalso
          unfold appliedIn at hcapp
          rw [hm] at hcapp
          have hcapp2 : m.is_applied = true := hcapp
          rw [hap] at hcapp2
          cases hcapp2
        · have hpred : blk.header.predecessor = k := hJ.2.1 k mk s.cursor blk hkm hks hblk
          rw [hbB, hpred]
          unfold appliedIn
          rw [hkm]
          exact hkap
      | succ j' =>
        rw [List.getElem?_cons_succ] at hB
        rcases ih hJ' j' B lb bB hB hhdr with h1 | h2
        · by_cases hxs : appliedIn s bB.header.predecessor = true
          · exact Or.inl hxs
          · right
            rw [appliedIn_cons hmetas] at h1
            by_cases hpb : bB.header.predecessor = blk.hash
            · refine ⟨0, blk.header.level, Nat.succ_pos j', ?_⟩
              rw [hev, List.singleton_append, List.getElem?_cons_zero, hpb]
            · rw [if_neg hpb] at h1
              exact absurd h1 hxs
        · obtain ⟨i, la, hij, hevi⟩ := h2
          right
          refine ⟨i + 1, la, Nat.succ_lt_succ hij, ?_⟩
          rw [hev, List.singleton_append, List.getElem?_cons_succ]
          exact hevi
  | estep s s' t evs he hr ih =>
    intro hJ j B lb bB hB hhdr
    rcases ih (FeederInv_env hJ he) j B lb bB hB hhdr with h1 | h2
    · left
      exact he.2.2.2.2.2 _ h1
    · right
      exact h2

/-- A run emits at most one `BlockApplied` event per block hash. -/
theorem Reaches_event_unique {applyOk : Nat → Bool} {s t : FeederState}
    {evs : List ShellEvent} (hr : Reaches applyOk s t evs) :
    FeederInv s → ∀ (i j x : Nat) (li lj : Int),
      evs[i]? = some (ShellEvent.BlockApplied x li) →
      evs[j]? = some (ShellEvent.BlockApplied x lj) → i = j := by
  induction hr with
  | refl s =>
    intro _ i j x li lj hi _
    simp at hi
  | fstep s t evs hr ih =>
    intro hJ i j x li lj hi hj
    have hJ' := FeederInv_feed_step applyOk s hJ
    rcases feed_step_cases applyOk s with ⟨hstate, hev, -⟩
      | ⟨m, succ, -, -, -, hstate, hev, -⟩
      | ⟨m, blk, -, -, -, -, -, hstate, hev, -, -⟩
      | ⟨m, blk, hm, hap, hblk, -, -, hev, -, hmetas, -, -⟩
    · rw [hev, List.nil_append] at hi hj
      exact ih hJ' i j x li lj hi hj
    · rw [hev, List.nil_append] at hi hj
      exact ih hJ' i j x li lj hi hj
    · rw [hev, List.nil_append] at hi hj
      exact ih hJ' i j x li lj hi hj
    · rw [hev, List.singleton_append] at hi hj
      have happlied : appliedIn (feed_step applyOk s).state blk.hash = true := by
        rw [appliedIn_cons hmetas]
        simp
      cases i with
      | zero =>
        cases j with
        | zero => rfl
        | succ j' =>
          exfalso
          rw [List.getElem?_cons_zero] at hi
          rw [List.getElem?_cons_succ] at hj
          simp only [Option.some.injEq, ShellEvent.BlockApplied.injEq] at hi
          obtain ⟨hx, -⟩ := hi
          have hmem := List.getElem?_mem hj
          exact Reaches_no_reapply hr hJ' x lj (by rw [hx] at happlied; exact happlied) hmem
      | succ i' =>
        cases j with
        | zero =>
          exfalso
          rw [List.getElem?_cons_zero] at hj
          rw [List.getElem?_cons_succ] at hi
          simp only [Option.some.injEq, ShellEvent.BlockApplied.injEq] at hj
          obtain ⟨hx, -⟩ := hj
          have hmem := List.getElem?_mem hi
          exact Reaches_no_reapply hr hJ' x li (by rw [hx] at happlied; exact happlied) hmem
        | succ j' =>
          rw [List.getElem?_cons_succ] at hi hj
          exact congrArg Nat.succ (ih hJ' i' j' x li lj hi hj)
  | estep s s' t evs he hr ih =>
    intro hJ i j x li lj hi hj
    exact ih (FeederInv_env hJ he) i j x li lj hi hj

/-- C2: the feeder applies blocks in causal order. In any concurrent run
starting from a well-formed store (headers keyed by their hash, successor
links pointing at genuine children) with the cursor at the persisted
last-applied block, if the run publishes `BlockApplied` for both `A` and `B`
and `B`'s stored header names `A` as its predecessor, then `A`'s event is
published strictly before `B`'s, and both blocks are applied in the final
state. -/
theorem c2_causal_apply_order (applyOk : Nat → Bool) (s t : FeederState)
    (evs : List ShellEvent) (hr : Reaches applyOk s t evs)
    (hkeys : ∀ p ∈ s.headers, p.2.hash = p.1)
    (hsucc : ∀ p ∈ s.metas, ∀ q ∈ s.headers,
      p.2.successor = some q.1 → q.2.header.predecessor = p.1)
    (hstart : appliedIn s s.cursor = true)
    (A B : Nat) (la lb : Int) (i j : Nat) (bB : BlockHeaderWithHash)
    (hA : evs[i]? = some (ShellEvent.BlockApplied A la))
    (hB : evs[j]? = some (ShellEvent.BlockApplied B lb))
    (hhdr : t.headers.lookup B = some bB)
    (hpred : bB.header.predecessor = A) :
    i < j ∧ appliedIn t A = true ∧ appliedIn t B = true := by
  have hJ : FeederInv s := by
    refine ⟨?_, ?_, Or.inl hstart⟩
    · intro k b h
      exact hkeys (k, b) (lookup_mem h)
    · intro k m c bc hm hsc hbc
      exact hsucc (k, m) (lookup_mem hm) (c, bc) (lookup_mem hbc) hsc
  rcases Reaches_pred_applied_before hr hJ j B lb bB hB hhdr with happ | ⟨i', la', hij, hevi⟩
  · rw [hpred] at happ
    exact absurd (List.getElem?_mem hA) (Reaches_no_reapply hr hJ A la happ)
  · rw [hpred] at hevi
    have hii : i = i' := Reaches_event_unique hr hJ i i' A la la' hA hevi
    refine ⟨by rw [hii]; exact hij,
      Reaches_event_applied hr A la (List.getElem?_mem hA),
      Reaches_event_applied hr B lb (List.getElem?_mem hB)⟩

/-- Witness for `c2_causal_apply_order`: the three-block demo store, whose run
applies block 2 (at index 0) before its child block 3 (at index 1). -/
theorem c2_causal_apply_order_witness :
    Reaches demoApply demoFeeder demoFeeder₃
        [ShellEvent.BlockApplied 2 2, ShellEvent.BlockApplied 3 3]
    ∧ (∀ p ∈ demoFeeder.headers, p.2.hash = p.1)
    ∧ (∀ p ∈ demoFeeder.metas, ∀ q ∈ demoFeeder.headers,
        p.2.successor = some q.1 → q.2.header.predecessor = p.1)
    ∧ appliedIn demoFeeder demoFeeder.cursor = true
    ∧ demoFeeder₃.headers.lookup 3 = some ⟨3, ⟨2, 3, []⟩⟩
    ∧ (0 < 1 ∧ appliedIn demoFeeder₃ 2 = true ∧ appliedIn demoFeeder₃ 3 = true) := by
  have h₂ : Reaches demoApply demoFeeder₂ demoFeeder₃
      ((feed_step demoApply demoFeeder₂).events ++ []) :=
    Reaches.fstep _ _ _ (Reaches.refl _)
  have h₁ : Reaches demoApply demoFeeder₁ demoFeeder₃
      ((feed_step demoApply demoFeeder₁).events
        ++ ((feed_step demoApply demoFeeder₂).events ++ [])) :=
    Reaches.fstep _ _ _ h₂
  have h₀ : Reaches demoApply demoFeeder demoFeeder₃
      ((feed_step demoApply demoFeeder).events
        ++ ((feed_step demoApply demoFeeder₁).events
          ++ ((feed_step demoApply demoFeeder₂).events ++ []))) :=
    Reaches.fstep _ _ _ h₁
  have hevs : ((feed_step demoApply demoFeeder).events
        ++ ((feed_step demoApply demoFeeder₁).events
          ++ ((feed_step demoApply demoFeeder₂).events ++ [])))
      = [ShellEvent.BlockApplied 2 2, ShellEvent.BlockApplied 3 3] := by decide
  rw [hevs] at h₀
  refine ⟨h₀, by decide, by decide, by decide, by decide, ?_⟩
  exact c2_causal_apply_order demoApply demoFeeder demoFeeder₃
    [ShellEvent.BlockApplied 2 2, ShellEvent.BlockApplied 3 3] h₀
    (by decide) (by decide) (by decide) 2 3 2 3 0 1 ⟨3, ⟨2, 3, []⟩⟩
    (by decide) (by decide) (by decide) rfl
